import Mathlib

/-!
Verification of qBittorrent's rotating file logger (`src/app/filelogger.cpp`,
`src/base/utils/gzip.cpp`) against its natural-language specification.

The C++ code is shallowly embedded: file contents are lists of record byte
lengths, paths are strings, Qt's `QDateTime` is a proleptic-Gregorian
date-time, and the stateful logger is a step function on an explicit state
record.  Each section names the source function it embeds.
-/

namespace QBit

/-! Calendar model: Qt's `QDateTime` restricted to what `filelogger.cpp`
uses (`addDays`, `addMonths`, `addYears`, `operator<=`).  Dates follow the
proleptic Gregorian calendar; day-number conversions use the standard civil
calendar algorithms with floor division. -/

/-- Calendar date, mirroring `QDate` (proleptic Gregorian). -/
structure Date where
  year : Int
  month : Int
  day : Int
deriving DecidableEq

/-- Gregorian leap-year test. -/
def isLeapYear (y : Int) : Bool :=
  (Int.emod y 4 == 0 && Int.emod y 100 != 0) || Int.emod y 400 == 0

/-- Number of days in a month, mirroring `QDate::daysInMonth`. -/
def daysInMonth (y m : Int) : Int :=
  if m = 2 then (if isLeapYear y then 29 else 28)
  else if m = 4 ∨ m = 6 ∨ m = 9 ∨ m = 11 then 30
  else 31

/-- Days since 1970-01-01 of a civil date (floor-division civil-calendar
algorithm). -/
def daysFromCivil (y m d : Int) : Int :=
  let yAdj := if m ≤ 2 then y - 1 else y
  let era := Int.ediv yAdj 400
  let yoe := yAdj - era * 400
  let mp := if m ≤ 2 then m + 9 else m - 3
  let doy := Int.ediv (153 * mp + 2) 5 + d - 1
  let doe := yoe * 365 + Int.ediv yoe 4 - Int.ediv yoe 100 + doy
  era * 146097 + doe - 719468

/-- Civil date of a day number since 1970-01-01 (inverse of
`daysFromCivil`). -/
def civilFromDays (z0 : Int) : Date :=
  let z := z0 + 719468
  let era := Int.ediv z 146097
  let doe := z - era * 146097
  let yoe := Int.ediv (doe - Int.ediv doe 1460 + Int.ediv doe 36524 - Int.ediv doe 146096) 365
  let y := yoe + era * 400
  let doy := doe - (365 * yoe + Int.ediv yoe 4 - Int.ediv yoe 100)
  let mp := Int.ediv (5 * doy + 2) 153
  let d := doy - Int.ediv (153 * mp + 2) 5 + 1
  let m := if mp < 10 then mp + 3 else mp - 9
  ⟨(if m ≤ 2 then y + 1 else y), m, d⟩

/-- Date plus time of day, mirroring `QDateTime` (seconds granularity). -/
structure DateTime where
  date : Date
  secs : Int
deriving DecidableEq

/-- Absolute seconds since the epoch of a `DateTime`; used for ordering. -/
def DateTime.toSecs (t : DateTime) : Int :=
  daysFromCivil t.date.year t.date.month t.date.day * 86400 + t.secs

/-- Comparison `a <= b` on `QDateTime`. -/
def dtLe (a b : DateTime) : Bool :=
  decide (a.toSecs ≤ b.toSecs)

/-- Model of `QDateTime::addDays`. -/
def addDays (t : DateTime) (n : Int) : DateTime :=
  { t with date := civilFromDays (daysFromCivil t.date.year t.date.month t.date.day + n) }

/-- Model of `QDateTime::addMonths`: month arithmetic with the day clamped
to the last valid day of the resulting month. -/
def addMonths (t : DateTime) (n : Int) : DateTime :=
  let tot := t.date.year * 12 + (t.date.month - 1) + n
  let y := Int.ediv tot 12
  let m := Int.emod tot 12 + 1
  { t with date := ⟨y, m, min t.date.day (daysInMonth y m)⟩ }

/-- Model of `QDateTime::addYears`: year arithmetic with the day clamped
to the last valid day of the resulting month. -/
def addYears (t : DateTime) (n : Int) : DateTime :=
  let y := t.date.year + n
  { t with date := ⟨y, t.date.month, min t.date.day (daysInMonth y t.date.month)⟩ }

/-! The `FileLogger::FileLogAgeType` enum.  In C++ the enumeration can carry
any `int` value, so the model keeps the integer carrier with the three named
values `DAYS = 0`, `MONTHS = 1`, `YEARS = 2`. -/

namespace FileLogger

/-- Enumerator `FileLogger::DAYS`. -/
def DAYS : Int := 0

/-- Enumerator `FileLogger::MONTHS`. -/
def MONTHS : Int := 1

/-- Enumerator `FileLogger::YEARS`. -/
def YEARS : Int := 2

end FileLogger

/-- Model of the file-local `isObsolete` in `filelogger.cpp` (lines 66-81):
adds `age` to the modification date in the unit selected by `ageType`
(`switch` with `default` falling through to years) and compares the result
against the current time.  `now` stands for `QDateTime::currentDateTime()`. -/
def isObsolete (modificationDate : DateTime) (ageType : Int) (age : Int) (now : DateTime) : Bool :=
  let m :=
    if ageType = FileLogger.DAYS then addDays modificationDate age
    else if ageType = FileLogger.MONTHS then addMonths modificationDate age
    else addYears modificationDate age
  dtLe m now

/-! Spec-side counterpart of `isObsolete`, for the refinement claim about
the age policy. -/

/-- Age unit as the spec words it: one of days, months or years. -/
inductive AgeUnit
  | days
  | months
  | years
deriving DecidableEq

/-- Follows the spec's words (§4.1), not the source: compute
`fileModTime + amount` in the given unit using calendar-aware arithmetic and
return true iff that result is `<=` the current time. -/
def isObsoleteSpec (fileModTime : DateTime) (unit : AgeUnit) (amount : Int) (now : DateTime) : Bool :=
  let bound :=
    match unit with
    | AgeUnit.days => addDays fileModTime amount
    | AgeUnit.months => addMonths fileModTime amount
    | AgeUnit.years => addYears fileModTime amount
  decide (bound.toSecs ≤ now.toSecs)

/-! Eviction sweep: `FileLogger::deleteOld` (lines 229-246).  The directory
listing is modelled as a list of backup files already sorted oldest-first by
modification time (`QDir::Time | QDir::Reversed`).  The loop deletes each
obsolete entry and `break`s at the first entry that is not obsolete. -/

/-- A backup file on disk: its content (list of record byte lengths) and
its modification time. -/
structure BackupFile where
  content : List Nat
  mtime : DateTime
deriving DecidableEq

/-- Model of the loop body of `FileLogger::deleteOld`: walks the
oldest-first listing, removing obsolete entries, stopping at the first
non-obsolete one.  Returns `(deleted, remaining)`. -/
def deleteOld (ageType age : Int) (now : DateTime) : List BackupFile → List BackupFile × List BackupFile
  | [] => ([], [])
  | f :: fs =>
    if isObsolete f.mtime ageType age now then
      let r := deleteOld ageType age now fs
      (f :: r.1, r.2)
    else ([], f :: fs)

/-! Backup naming: the file-local `handleBackups` in `filelogger.cpp`
(lines 52-64).  Paths are strings, the filesystem is the list of paths that
currently exist, and `QString::number` is the usual decimal representation,
defined here together with a value function used to prove it injective. -/

/-- Decimal digit character, `'0'` through `'9'`. -/
def digitChar (d : Nat) : Char := Char.ofNat (48 + d)

/-- Decimal digit string of a natural number (the rendering
`QString::number` produces for non-negative values). -/
def decDigits (n : Nat) : List Char :=
  if _h : n < 10 then [digitChar n]
  else decDigits (n / 10) ++ [digitChar (n % 10)]
termination_by n
decreasing_by exact Nat.div_lt_self (by omega) (by omega)

/-- Numeric value of a digit string; left inverse of `decDigits`. -/
def decVal (l : List Char) : Nat :=
  l.foldl (fun a c => a * 10 + (c.toNat - 48)) 0

/-- Decimal string of a natural number. -/
def decRepr (n : Nat) : String := String.mk (decDigits n)

/-- Candidate backup name number `k` for `baseName`: `<base>.bak` for
`k = 0`, `<base>.bakN` for `k = N ≥ 1`, with `.gz` appended iff
`compressed` — exactly the names the loop in `handleBackups` tries, in
order. -/
def candName (baseName : String) (compressed : Bool) (k : Nat) : String :=
  baseName ++ ".bak" ++ (if k = 0 then "" else decRepr k) ++ (if compressed then ".gz" else "")

/-- The existence-check loop of `handleBackups`: starting from candidate
`counter`, advance while the candidate exists in `fs`.  `fuel` bounds the
search; `fs.length + 1` steps always suffice. -/
def findFree (fs : List String) (baseName : String) (compressed : Bool) : Nat → Nat → Nat
  | 0, counter => counter
  | fuel + 1, counter =>
    if candName baseName compressed counter ∈ fs then
      findFree fs baseName compressed fuel (counter + 1)
    else counter

/-- Index of the first candidate backup name that does not exist in `fs`. -/
def nextBackupIndex (fs : List String) (baseName : String) (compressed : Bool) : Nat :=
  findFree fs baseName compressed (fs.length + 1) 0

/-- Model of `Utils::Fs::renameFile` on the set of existing paths: moves
`src` to `dst` when `src` exists, otherwise does nothing. -/
def renameFile (fs : List String) (src dst : String) : List String :=
  if src ∈ fs then dst :: fs.erase src else fs

/-- Model of `handleBackups` (lines 52-64): pick the first free candidate
name, rename `renameFrom` to it, and return it together with the new
filesystem state. -/
def handleBackups (fs : List String) (baseName renameFrom : String) (compressed : Bool) : String × List String :=
  let renameTo := candName baseName compressed (nextBackupIndex fs baseName compressed)
  (renameTo, renameFile fs renameFrom renameTo)

/-- N consecutive rotations with no intervening deletions: each rotation
runs `handleBackups(base, base, compressed)` and then reopens (recreates)
the active file at `base`, as `FileLogger::makeBackup` followed by
`openLogFile` does.  Returns the filesystem state and the backup names
produced, in order. -/
def rotateSeq (baseName : String) (compressed : Bool) (fs : List String) : Nat → List String × List String
  | 0 => (fs, [])
  | n + 1 =>
    let r := rotateSeq baseName compressed fs n
    let h := handleBackups r.1 baseName baseName compressed
    (baseName :: h.2, r.2 ++ [h.1])

/-! Compression primitive: `src/base/utils/gzip.cpp`.  The byte-level codec
itself is zlib's `deflate`/`inflate`, which is external to the repository;
it is modelled from the spec below.  The wrappers `Utils::Gzip::compress`
(lines 99-114) and `Utils::Gzip::decompress` (lines 116-171) are embedded
from the source.  Buffers are lists of byte values. -/

/-- Gzip frame the modelled codec produces around a payload. -/
def gzipFrame (level : Nat) (data : List Nat) : List Nat :=
  31 :: 139 :: level :: data

/-- Modelled from the spec: zlib's `deflate` stream (the byte-level
compression primitive, §6), which is not part of src.  The spec fixes only
the interface `compressBytes(buffer, level) -> (compressed, ok)` with
integer levels 0-9 and a decompression inverse, so the codec is modelled as
an injective framing of the payload behind a gzip-style magic header,
failing on levels outside 0-9 (as `deflateInit2` does). -/
def deflateModel (level : Nat) (data : List Nat) : Option (List Nat) :=
  if level ≤ 9 then some (gzipFrame level data) else none

/-- Modelled from the spec: zlib's `inflate` stream (the decompression
primitive, §6), not part of src; exact inverse of `deflateModel`. -/
def inflateModel (data : List Nat) : Option (List Nat) :=
  match data with
  | 31 :: 139 :: _ :: rest => some rest
  | _ => none

/-- Model of `Utils::Gzip::compress(QByteArray, level, ok)` (gzip.cpp lines
99-114): empty input yields an empty result with `ok = false`; otherwise
the streaming codec runs and `ok` reports its result. -/
def Utils.Gzip.compress (data : List Nat) (level : Nat) : List Nat × Bool :=
  if data = [] then ([], false)
  else
    match deflateModel level data with
    | some out => (out, true)
    | none => ([], false)

/-- Model of `Utils::Gzip::decompress(QByteArray, ok)` (gzip.cpp lines
116-171): empty input yields an empty result with `ok = false`; a codec
error yields an empty result with `ok = false`; otherwise the inflated
payload with `ok = true`. -/
def Utils.Gzip.decompress (data : List Nat) : List Nat × Bool :=
  if data = [] then ([], false)
  else
    match inflateModel data with
    | some out => (out, true)
    | none => ([], false)

/-! Background compression job: class `CmpressTask` in `filelogger.cpp`
(lines 83-153).  The filesystem slice a job touches is its source backup
file and its destination file; open-step and codec/write outcomes that
depend on the environment are inputs. -/

/-- The two paths a compression job touches: `none` means the file does not
exist. -/
structure CompressFS where
  source : Option BackupFile
  dest : Option BackupFile
deriving DecidableEq

/-- Environment-determined outcomes of the fallible steps of a job: whether
opening the source for reading succeeds, whether opening the destination
(`WriteOnly | NewOnly`) succeeds when no destination exists yet, and
whether the streaming codec (including its writes) succeeds. -/
structure IOOutcome where
  sourceOpenOk : Bool
  destOpenOk : Bool
  codecOk : Bool
deriving DecidableEq

/-- Model of `CmpressTask::compressBackupFile` (lines 108-149): captures the
source timestamps, opens source then destination, streams the source
through `Utils::Gzip::compress` at level 6, restores the timestamps on
success, and removes the partial destination on codec failure.  Returns the
success flag and the resulting filesystem slice. -/
def compressBackupFile (fs : CompressFS) (io : IOOutcome) : Bool × CompressFS :=
  match fs.source with
  | none => (false, fs)
  | some src =>
    if io.sourceOpenOk = false then (false, fs)
    else
      match fs.dest with
      | some _ => (false, fs)
      | none =>
        if io.destOpenOk = false then (false, fs)
        else if io.codecOk then
          (true, { fs with dest := some ⟨gzipFrame 6 src.content, src.mtime⟩ })
        else (false, { fs with dest := none })

/-- Model of `CmpressTask::run` (lines 93-105): on success, remove the
source file and invoke the completion callback (flag `true`); on failure,
change nothing further. -/
def cmpressTaskRun (fs : CompressFS) (io : IOOutcome) : CompressFS × Bool :=
  let r := compressBackupFile fs io
  if r.1 then ({ r.2 with source := none }, true)
  else (r.2, false)

/-! The logger itself: `FileLogger::addLogMessage` (lines 278-320) and the
flush timer.  A record is represented by its formatted byte length; the
active file is the list of record lengths it holds, oldest first, and the
backups are ordered oldest first.  Writing through the `QTextStream` is
modelled as appending the record to the active file.  `now` stands for the
wall-clock `QDateTime`, `tNow` for the monotonic second at which the call
happens (used only for the flush timer). -/

/-- Policy state of the logger: `m_backup`, `m_maxSize`, `m_deleteOld`,
`m_ageType`, `m_age`. -/
structure LoggerConfig where
  backup : Bool
  maxSize : Nat
  deleteOld : Bool
  ageType : Int
  age : Int
deriving DecidableEq

/-- Mutable state of the logger: whether `m_logFile` is open, the active
file's records, the backup directory, and the single-shot flush timer
(`m_flusher`): whether it is running, when it was started, and how many
bytes are written but not yet flushed. -/
structure LoggerState where
  fileOpen : Bool
  active : List Nat
  backups : List BackupFile
  timerActive : Bool
  timerStart : Nat
  unflushed : Nat
deriving DecidableEq

/-- Observable actions one `addLogMessage` call performs, in order. -/
inductive LogEvent
  | wrote
  | evicted
  | rotated
  | timerStarted
deriving DecidableEq

/-- The flush debounce interval, `FLUSH_INTERVAL` (2 seconds). -/
def FLUSH_INTERVAL : Nat := 2

/-- Size in bytes of a file holding the given records. -/
def recordsSize (l : List Nat) : Nat := l.sum

/-- Model of `FileLogger::addLogMessage` (lines 278-320): return unchanged
if the log file is not open; append the formatted record; if `m_deleteOld`,
run the eviction sweep; if `m_backup` and the file size reached
`m_maxSize`, close, back up (the rotated-out backup gets modification time
`now`) and reopen; otherwise start the flush timer if it is not already
running.  Closing the file stops the flush timer and flushes buffered
bytes. -/
def addLogMessage (cfg : LoggerConfig) (now : DateTime) (tNow : Nat) (msgLen : Nat) (s : LoggerState) : LoggerState × List LogEvent :=
  if s.fileOpen = false then (s, [])
  else
    let s1 : LoggerState := { s with active := s.active ++ [msgLen], unflushed := s.unflushed + msgLen }
    let s2 : LoggerState :=
      if cfg.deleteOld then { s1 with backups := (deleteOld cfg.ageType cfg.age now s1.backups).2 }
      else s1
    let evs : List LogEvent :=
      if cfg.deleteOld then [LogEvent.wrote, LogEvent.evicted] else [LogEvent.wrote]
    if cfg.backup = true ∧ cfg.maxSize ≤ recordsSize s2.active then
      ({ s2 with active := [], backups := s2.backups ++ [⟨s2.active, now⟩],
                 timerActive := false, unflushed := 0 },
       evs ++ [LogEvent.rotated])
    else if s2.timerActive then (s2, evs)
    else ({ s2 with timerActive := true, timerStart := tNow }, evs ++ [LogEvent.timerStarted])

/-- Model of `FileLogger::flushLog` (lines 322-326): flush buffered writes
when the file is open. -/
def flushLog (s : LoggerState) : LoggerState :=
  if s.fileOpen then { s with unflushed := 0 } else s

/-- The single-shot flush timer firing: the timer stops and its timeout
slot `flushLog` runs. -/
def timerExpire (s : LoggerState) : LoggerState :=
  flushLog { s with timerActive := false }

/-! Concrete inputs for the spec's 80-byte/70-byte scenario and for the
flush-timer behaviour. -/

/-- Configuration of the spec's §8 scenario: backups on, `maxSizeBytes`
100, eviction off. -/
def scenarioConfig : LoggerConfig :=
  { backup := true, maxSize := 100, deleteOld := false, ageType := FileLogger.YEARS, age := 1 }

/-- A fixed wall-clock instant. -/
def epochDT : DateTime := ⟨⟨2024, 1, 1⟩, 0⟩

/-- Logger freshly opened on an empty active file. -/
def emptyLogger : LoggerState :=
  { fileOpen := true, active := [], backups := [], timerActive := false, timerStart := 0, unflushed := 0 }

/-- State after appending the 80-byte record to the empty active file. -/
def scenarioStep1 : LoggerState := (addLogMessage scenarioConfig epochDT 0 80 emptyLogger).1

/-- State after then appending the 70-byte record. -/
def scenarioStep2 : LoggerState := (addLogMessage scenarioConfig epochDT 1 70 scenarioStep1).1

/-- A logger whose flush timer is already running (started at second 0)
with one small record in the active file. -/
def busyTimerState : LoggerState :=
  { fileOpen := true, active := [10], backups := [], timerActive := true, timerStart := 0, unflushed := 10 }

/-- An append at second 5 onto `busyTimerState` that does not trigger a
rotation. -/
def lateAppend : LoggerState × List LogEvent :=
  addLogMessage scenarioConfig epochDT 5 1 busyTimerState

/-- A configuration with eviction enabled and backups disabled. -/
def evictConfig : LoggerConfig :=
  { backup := false, maxSize := 100, deleteOld := true, ageType := FileLogger.YEARS, age := 1 }

/-- A logger holding one backup old enough to be obsolete in 2024. -/
def evictState : LoggerState :=
  { fileOpen := true, active := [3], backups := [⟨[5], ⟨⟨2020, 1, 1⟩, 0⟩⟩],
    timerActive := false, timerStart := 0, unflushed := 0 }

/-! Theorems.  Helper lemmas come first, then one theorem (plus witness or
counterexample) per claim. -/

lemma compressBackupFile_failure (fs : CompressFS) (io : IOOutcome)
    (h : (compressBackupFile fs io).1 = false) :
    (compressBackupFile fs io).2 = fs := by
  obtain ⟨src, dst⟩ := fs
  unfold compressBackupFile at h ⊢
  cases src with
  | none => rfl
  | some f =>
    by_cases h1 : io.sourceOpenOk = false
    · simp [h1]
    · simp only [h1, if_false] at h ⊢
      cases dst with
      | some d => rfl
      | none =>
        by_cases h2 : io.destOpenOk = false
        · simp [h2]
        · simp only [h2, if_false] at h ⊢
          by_cases h3 : io.codecOk
          · simp [h3] at h
          · simp [h3]

lemma deleteOld_eq_splitWhile (ageType age : Int) (now : DateTime) :
    ∀ l : List BackupFile,
      (deleteOld ageType age now l).1 = l.takeWhile (fun f => isObsolete f.mtime ageType age now)
      ∧ (deleteOld ageType age now l).2 = l.dropWhile (fun f => isObsolete f.mtime ageType age now)
      ∧ (∀ f ∈ (deleteOld ageType age now l).1, isObsolete f.mtime ageType age now = true)
  | [] => by simp [deleteOld]
  | f :: fs => by
    obtain ⟨ih1, ih2, ih3⟩ := deleteOld_eq_splitWhile ageType age now fs
    by_cases h : isObsolete f.mtime ageType age now
    · refine ⟨?_, ?_, ?_⟩
      · simp [deleteOld, h, List.takeWhile, ih1]
      · simp [deleteOld, h, List.dropWhile, ih2]
      · intro x hx
        simp only [deleteOld, h, if_true, List.mem_cons] at hx
        rcases hx with rfl | hx
        · exact h
        · exact ih3 x hx
    · simp [deleteOld, h, List.takeWhile, List.dropWhile]

/-- C7: `isObsolete` returns true iff the modification time plus the amount
in the requested unit (calendar-aware addition of days, months or years, as
`isObsoleteSpec` words it) is `<=` the current time, and every age-type
value other than `DAYS` or `MONTHS` — including out-of-range values —
yields the same result as `YEARS`. -/
theorem isObsolete_spec_equiv (modTime now : DateTime) (age : Int) :
    (isObsolete modTime FileLogger.DAYS age now = isObsoleteSpec modTime AgeUnit.days age now)
    ∧ (isObsolete modTime FileLogger.MONTHS age now = isObsoleteSpec modTime AgeUnit.months age now)
    ∧ (isObsolete modTime FileLogger.YEARS age now = isObsoleteSpec modTime AgeUnit.years age now)
    ∧ (∀ unitCode : Int, unitCode ≠ FileLogger.DAYS → unitCode ≠ FileLogger.MONTHS →
        isObsolete modTime unitCode age now = isObsolete modTime FileLogger.YEARS age now) := by
  refine ⟨rfl, rfl, rfl, fun u h0 h1 => ?_⟩
  simp [isObsolete, FileLogger.DAYS, FileLogger.MONTHS, FileLogger.YEARS] at h0 h1 ⊢
  rw [if_neg h0, if_neg h1]

/-- Closed instance of `isObsolete_spec_equiv`: the out-of-range age type 7
behaves as `YEARS` on a concrete date pair. -/
theorem isObsolete_spec_equiv_witness :
    isObsolete ⟨⟨2020, 1, 1⟩, 0⟩ 7 1 ⟨⟨2021, 6, 1⟩, 0⟩
      = isObsolete ⟨⟨2020, 1, 1⟩, 0⟩ FileLogger.YEARS 1 ⟨⟨2021, 6, 1⟩, 0⟩ :=
  (isObsolete_spec_equiv ⟨⟨2020, 1, 1⟩, 0⟩ ⟨⟨2021, 6, 1⟩, 0⟩ 1).2.2.2 7 (by decide) (by decide)

/-- C4: for every non-empty byte buffer and every compression level 0-9,
decompressing the result of compressing the buffer yields exactly the
original buffer, with both operations reporting success. -/
theorem gzip_roundTrip (data : List Nat) (level : Nat)
    (hne : data ≠ []) (hlvl : level ≤ 9) :
    Utils.Gzip.decompress (Utils.Gzip.compress data level).1 = (data, true)
    ∧ (Utils.Gzip.compress data level).2 = true := by
  have hc : Utils.Gzip.compress data level = (gzipFrame level data, true) := by
    unfold Utils.Gzip.compress deflateModel
    rw [if_neg hne, if_pos hlvl]
  rw [hc]
  exact ⟨by unfold Utils.Gzip.decompress inflateModel gzipFrame; simp, rfl⟩

/-- Closed instance of `gzip_roundTrip` on the buffer `[104, 105]` at level
6. -/
theorem gzip_roundTrip_witness :
    Utils.Gzip.decompress (Utils.Gzip.compress [104, 105] 6).1 = ([104, 105], true)
    ∧ (Utils.Gzip.compress [104, 105] 6).2 = true :=
  gzip_roundTrip [104, 105] 6 (by decide) (by decide)

/-- C5: when any step of a compression job fails (source open, destination
open, codec or write error), the job leaves the filesystem exactly as it
found it — any partial destination is removed, the plain source backup is
neither deleted nor renamed — and the completion callback never runs, so a
backup becomes compressed only if compression fully succeeds. -/
theorem cmpressTask_failure_frame (fs : CompressFS) (io : IOOutcome)
    (hfail : (compressBackupFile fs io).1 = false) :
    (cmpressTaskRun fs io).1.source = fs.source
    ∧ (cmpressTaskRun fs io).1.dest = fs.dest
    ∧ (cmpressTaskRun fs io).2 = false := by
  have hfs := compressBackupFile_failure fs io hfail
  simp [cmpressTaskRun, hfail, hfs]

/-- Closed instance of `cmpressTask_failure_frame`: a codec failure on a
job whose source backup holds two bytes leaves the source in place and no
destination file. -/
theorem cmpressTask_failure_frame_witness :
    (cmpressTaskRun ⟨some ⟨[1, 2], epochDT⟩, none⟩ ⟨true, true, false⟩).1.source = some ⟨[1, 2], epochDT⟩
    ∧ (cmpressTaskRun ⟨some ⟨[1, 2], epochDT⟩, none⟩ ⟨true, true, false⟩).1.dest = none
    ∧ (cmpressTaskRun ⟨some ⟨[1, 2], epochDT⟩, none⟩ ⟨true, true, false⟩).2 = false :=
  cmpressTask_failure_frame ⟨some ⟨[1, 2], epochDT⟩, none⟩ ⟨true, true, false⟩ (by decide)

/-- C6: on a listing ordered oldest-first by modification time, the
eviction sweep deletes exactly the leading run of obsolete entries — every
deleted entry is obsolete — and stops at the first non-obsolete entry,
keeping the whole suffix from that position untouched. -/
theorem deleteOld_sweep (ageType age : Int) (now : DateTime) (l : List BackupFile)
    (hsorted : l.Chain' (fun a b => dtLe a.mtime b.mtime = true)) :
    (deleteOld ageType age now l).1 = l.takeWhile (fun f => isObsolete f.mtime ageType age now)
    ∧ (deleteOld ageType age now l).2 = l.dropWhile (fun f => isObsolete f.mtime ageType age now)
    ∧ (∀ f ∈ (deleteOld ageType age now l).1, isObsolete f.mtime ageType age now = true)
    ∧ (deleteOld ageType age now l).2.Sublist l := by
  obtain ⟨h1, h2, h3⟩ := deleteOld_eq_splitWhile ageType age now l
  refine ⟨h1, h2, h3, ?_⟩
  rw [h2]
  exact List.dropWhile_sublist _

/-- Closed instance of `deleteOld_sweep` on a sorted three-entry listing
whose first entry is obsolete and second is fresh: only the first entry is
deleted and the scan stops there. -/
theorem deleteOld_sweep_witness :
    (deleteOld FileLogger.YEARS 1 ⟨⟨2024, 1, 1⟩, 0⟩
        [⟨[1], ⟨⟨2020, 1, 1⟩, 0⟩⟩, ⟨[2], ⟨⟨2023, 12, 1⟩, 0⟩⟩, ⟨[3], ⟨⟨2023, 12, 2⟩, 0⟩⟩]).1
      = [⟨[1], ⟨⟨2020, 1, 1⟩, 0⟩⟩]
    ∧ (deleteOld FileLogger.YEARS 1 ⟨⟨2024, 1, 1⟩, 0⟩
        [⟨[1], ⟨⟨2020, 1, 1⟩, 0⟩⟩, ⟨[2], ⟨⟨2023, 12, 1⟩, 0⟩⟩, ⟨[3], ⟨⟨2023, 12, 2⟩, 0⟩⟩]).2
      = [⟨[2], ⟨⟨2023, 12, 1⟩, 0⟩⟩, ⟨[3], ⟨⟨2023, 12, 2⟩, 0⟩⟩] := by
  have h := deleteOld_sweep FileLogger.YEARS 1 ⟨⟨2024, 1, 1⟩, 0⟩
    [⟨[1], ⟨⟨2020, 1, 1⟩, 0⟩⟩, ⟨[2], ⟨⟨2023, 12, 1⟩, 0⟩⟩, ⟨[3], ⟨⟨2023, 12, 2⟩, 0⟩⟩]
    (List.chain'_cons.mpr ⟨by decide, List.chain'_cons.mpr ⟨by decide, List.chain'_singleton _⟩⟩)
  exact ⟨by rw [h.1]; decide, by rw [h.2.1]; decide⟩

/-- C2 as the spec states it fails on the code: the record is written
before the size check, so the 70-byte record that triggers the rotation
lands in the rotated-out file — after the second write the active file is
not `[70]` and the backup does not hold only the first 80 bytes. -/
theorem scenario_150_counterexample :
    ¬ (scenarioStep2.active = [70]
       ∧ scenarioStep2.backups.map (fun b => b.content) = [[80]]) := by decide

/-- C2 amended: after the second write the active file is empty and exactly
one backup exists, containing both records (the 80-byte record followed by
the 70-byte one, 150 bytes in total). -/
theorem scenario_150_amended :
    scenarioStep2.active = []
    ∧ scenarioStep2.backups.map (fun b => b.content) = [[80, 70]]
    ∧ scenarioStep2.backups.length = 1 := by decide

lemma digitChar_toNat {d : Nat} (h : d < 10) : (digitChar d).toNat = 48 + d := by
  interval_cases d <;> rfl

lemma decDigits_ne_nil (n : Nat) : decDigits n ≠ [] := by
  rw [decDigits]
  split
  · simp
  · simp

lemma decDigits_foldl (n : Nat) :
    ∀ a : Nat, (decDigits n).foldl (fun acc c => acc * 10 + (c.toNat - 48)) a
      = a * 10 ^ (decDigits n).length + n := by
  induction n using Nat.strong_induction_on with
  | _ n ih =>
    intro a
    rw [decDigits]
    by_cases h : n < 10
    · rw [dif_pos h]
      simp [List.foldl, digitChar_toNat h]
    · rw [dif_neg h]
      have hlt : n / 10 < n := Nat.div_lt_self (by omega) (by omega)
      have hmod : n % 10 < 10 := Nat.mod_lt _ (by omega)
      rw [List.foldl_append, ih (n / 10) hlt a]
      simp [List.foldl, digitChar_toNat hmod, List.length_append]
      rw [pow_succ, ← mul_assoc]
      omega

lemma decVal_decDigits (n : Nat) : decVal (decDigits n) = n := by
  have h := decDigits_foldl n 0
  simpa [decVal] using h

lemma decDigits_inj {a b : Nat} (h : decDigits a = decDigits b) : a = b := by
  have ha := decVal_decDigits a
  rw [h, decVal_decDigits] at ha
  omega

lemma decRepr_data (n : Nat) : (decRepr n).data = decDigits n := rfl

lemma emptyString_data : ("" : String).data = [] := rfl

lemma candName_inj (baseName : String) (compressed : Bool) :
    Function.Injective (candName baseName compressed) := by
  intro j k h
  have hd := congrArg String.data h
  simp only [candName, String.data_append, List.append_assoc] at hd
  have h1 := List.append_cancel_left hd
  have h2 := List.append_cancel_left h1
  have h3 := List.append_cancel_right h2
  rw [apply_ite String.data, apply_ite String.data] at h3
  simp only [decRepr_data, emptyString_data] at h3
  by_cases hj : j = 0 <;> by_cases hk : k = 0
  · omega
  · rw [if_pos hj, if_neg hk] at h3
    exact absurd h3.symm (decDigits_ne_nil k)
  · rw [if_neg hj, if_pos hk] at h3
    exact absurd h3 (decDigits_ne_nil j)
  · rw [if_neg hj, if_neg hk] at h3
    exact decDigits_inj h3

lemma candName_ne_base (b : String) (g : Bool) (k : Nat) : candName b g k ≠ b := by
  intro h
  have hd := congrArg (fun s => s.data.length) h
  simp only [candName, String.data_append, List.append_assoc, List.length_append,
    List.length_cons, List.length_nil] at hd
  omega

lemma findFree_free (fs : List String) (b : String) (g : Bool) :
    ∀ fuel start : Nat, (∃ j, start ≤ j ∧ j < start + fuel ∧ candName b g j ∉ fs) →
      candName b g (findFree fs b g fuel start) ∉ fs := by
  intro fuel
  induction fuel with
  | zero =>
    intro start h
    obtain ⟨j, h1, h2, _⟩ := h
    omega
  | succ m ih =>
    intro start h
    obtain ⟨j, h1, h2, h3⟩ := h
    simp only [findFree]
    by_cases hc : candName b g start ∈ fs
    · rw [if_pos hc]
      apply ih
      have hne : j ≠ start := fun he => h3 (he ▸ hc)
      exact ⟨j, by omega, by omega, h3⟩
    · rw [if_neg hc]
      exact hc

lemma cands_count_le (b : String) (g : Bool) (fs : List String) (m : Nat)
    (h : ∀ j, j < m → candName b g j ∈ fs) : m ≤ fs.length := by
  classical
  have hnd : ((List.range m).map (candName b g)).Nodup :=
    List.Nodup.map (candName_inj b g) (List.nodup_range m)
  have hsub : ((List.range m).map (candName b g)).toFinset ⊆ fs.toFinset := by
    intro x hx
    rw [List.mem_toFinset] at hx ⊢
    rw [List.mem_map] at hx
    obtain ⟨j, hj, rfl⟩ := hx
    exact h j (List.mem_range.mp hj)
  have h1 : ((List.range m).map (candName b g)).toFinset.card = m := by
    rw [List.toFinset_card_of_nodup hnd]
    simp
  have h2 := Finset.card_le_card hsub
  have h3 := fs.toFinset_card_le
  omega

lemma nextBackupIndex_free (fs : List String) (b : String) (g : Bool) :
    candName b g (nextBackupIndex fs b g) ∉ fs := by
  apply findFree_free
  by_contra hno
  push_neg at hno
  have := cands_count_le b g fs (fs.length + 1) (fun j hj => hno j (by omega) (by omega))
  omega

lemma findFree_eq_exact (fs : List String) (b : String) (g : Bool) (m : Nat)
    (hmem : ∀ j, j < m → candName b g j ∈ fs) (hfree : candName b g m ∉ fs) :
    ∀ fuel start : Nat, start ≤ m → m < start + fuel → findFree fs b g fuel start = m := by
  intro fuel
  induction fuel with
  | zero =>
    intro start h1 h2
    omega
  | succ f ih =>
    intro start h1 h2
    simp only [findFree]
    by_cases hc : candName b g start ∈ fs
    · rw [if_pos hc]
      have hne : start ≠ m := fun he => hfree (he ▸ hc)
      exact ih (start + 1) (by omega) (by omega)
    · rw [if_neg hc]
      by_contra hne
      exact hc (hmem start (by omega))

lemma rotateSeq_invariant (b : String) (g : Bool) (fs₀ : List String)
    (hb : b ∈ fs₀) (hfresh : ∀ k, candName b g k ∉ fs₀) :
    ∀ n : Nat,
      (∀ j, j < n → candName b g j ∈ (rotateSeq b g fs₀ n).1)
      ∧ (∀ k, n ≤ k → candName b g k ∉ (rotateSeq b g fs₀ n).1)
      ∧ b ∈ (rotateSeq b g fs₀ n).1
      ∧ (rotateSeq b g fs₀ n).2 = (List.range n).map (candName b g) := by
  have hbc : ∀ k, b ≠ candName b g k := fun k he => hfresh k (he ▸ hb)
  intro n
  induction n with
  | zero =>
    exact ⟨fun j hj => absurd hj (by omega), fun k _ => hfresh k, hb, by simp [rotateSeq]⟩
  | succ n ih =>
    obtain ⟨ih1, ih2, ih3, ih4⟩ := ih
    have hidx : nextBackupIndex (rotateSeq b g fs₀ n).1 b g = n := by
      unfold nextBackupIndex
      apply findFree_eq_exact _ _ _ n ih1 (ih2 n (le_refl n))
      · omega
      · have := cands_count_le b g (rotateSeq b g fs₀ n).1 n ih1
        omega
    have hstep1 : (rotateSeq b g fs₀ (n + 1)).1
        = b :: candName b g n :: ((rotateSeq b g fs₀ n).1.erase b) := by
      simp only [rotateSeq, handleBackups, hidx, renameFile, if_pos ih3]
    have hstep2 : (rotateSeq b g fs₀ (n + 1)).2
        = (rotateSeq b g fs₀ n).2 ++ [candName b g n] := by
      simp only [rotateSeq, handleBackups, hidx]
    refine ⟨?_, ?_, ?_, ?_⟩
    · intro j hj
      rw [hstep1]
      rcases Nat.lt_succ_iff_lt_or_eq.mp hj with hlt | heq
      · have hne : candName b g j ≠ b := fun he => hbc j he.symm
        simp only [List.mem_cons]
        exact Or.inr (Or.inr ((List.mem_erase_of_ne hne).mpr (ih1 j hlt)))
      · subst heq
        simp [List.mem_cons]
    · intro k hk
      rw [hstep1]
      intro hmem
      simp only [List.mem_cons] at hmem
      rcases hmem with he | he | he
      · exact hbc k he.symm
      · have := candName_inj b g he
        omega
      · exact ih2 k (by omega) (List.mem_of_mem_erase he)
    · rw [hstep1]
      simp [List.mem_cons]
    · rw [hstep2, ih4, List.range_succ, List.map_append]
      rfl

/-- C3: `handleBackups` always selects a name that does not currently
exist, trying `<base>.bak`, then `<base>.bak1`, `<base>.bak2`, ... (with
`.gz` appended iff compressed); starting from a directory holding the
active file and no backup candidates, N consecutive rotations with no
intervening deletions produce exactly the candidate names of indices
0, 1, ..., N-1 — N distinct paths, the first unsuffixed, the numeric
suffixes strictly increasing afterwards. -/
theorem handleBackups_naming (baseName : String) (compressed : Bool) :
    (∀ fs : List String, candName baseName compressed (nextBackupIndex fs baseName compressed) ∉ fs)
    ∧ (∀ fs₀ : List String, baseName ∈ fs₀ → (∀ k, candName baseName compressed k ∉ fs₀) →
        ∀ n : Nat,
          (rotateSeq baseName compressed fs₀ n).2
            = (List.range n).map (candName baseName compressed)
          ∧ ((rotateSeq baseName compressed fs₀ n).2).Nodup) := by
  refine ⟨fun fs => nextBackupIndex_free fs baseName compressed, fun fs₀ hb hfresh n => ?_⟩
  have h := (rotateSeq_invariant baseName compressed fs₀ hb hfresh n).2.2.2
  refine ⟨h, ?_⟩
  rw [h]
  exact List.Nodup.map (candName_inj baseName compressed) (List.nodup_range n)

/-- Closed instance of `handleBackups_naming`: with only
`qbittorrent.log` on disk, the selected name is new, and two rotations
yield the names of candidate indices 0 and 1 in order. -/
theorem handleBackups_naming_witness :
    candName "qbittorrent.log" false
        (nextBackupIndex ["qbittorrent.log"] "qbittorrent.log" false) ∉ (["qbittorrent.log"] : List String)
    ∧ (rotateSeq "qbittorrent.log" false ["qbittorrent.log"] 2).2
        = (List.range 2).map (candName "qbittorrent.log" false) := by
  obtain ⟨h1, h2⟩ := handleBackups_naming "qbittorrent.log" false
  exact ⟨h1 ["qbittorrent.log"],
    (h2 ["qbittorrent.log"] (by decide)
      (fun k hk => absurd (List.mem_singleton.mp hk) (candName_ne_base "qbittorrent.log" false k)) 2).1⟩

/-- C8 as stated fails on the code: `handleBackups` is not side-effect
free — it renames `renameFrom` to the selected name itself, so the
filesystem differs before and after the call on this concrete input. -/
theorem handleBackups_not_pure :
    (handleBackups ["qbittorrent.log"] "qbittorrent.log" "qbittorrent.log" false).2
      ≠ ["qbittorrent.log"] := by decide

/-- C8 amended: the name-selection loop inside `handleBackups` only tests
paths for existence, but the function then performs the rename itself:
when `renameFrom` exists, the filesystem afterwards consists of the
freshly selected (previously non-existent) name plus the original files
minus `renameFrom`; no separate rename is left to the caller. -/
theorem handleBackups_renames (fs : List String) (baseName renameFrom : String) (compressed : Bool)
    (hmem : renameFrom ∈ fs) :
    (handleBackups fs baseName renameFrom compressed).1 ∉ fs
    ∧ (handleBackups fs baseName renameFrom compressed).2
        = (handleBackups fs baseName renameFrom compressed).1 :: fs.erase renameFrom := by
  refine ⟨nextBackupIndex_free fs baseName compressed, ?_⟩
  simp [handleBackups, renameFile, hmem]

/-- Closed instance of `handleBackups_renames` on a two-file directory. -/
theorem handleBackups_renames_witness :
    (handleBackups ["a.log", "b"] "a.log" "a.log" false).1 ∉ (["a.log", "b"] : List String)
    ∧ (handleBackups ["a.log", "b"] "a.log" "a.log" false).2
        = (handleBackups ["a.log", "b"] "a.log" "a.log" false).1 :: (["a.log", "b"] : List String).erase "a.log" :=
  handleBackups_renames ["a.log", "b"] "a.log" "a.log" false (by decide)

/-- C1: while the log file is open with backups enabled, a record whose
write brings the active file to at least `maxSizeBytes` triggers a rotation
in the same `addLogMessage` call: the fresh active file is empty, the
rotated-out backup is exactly the prior active content followed by the
triggering record, and — the size having been below the limit before the
write — the rotated file exceeds the limit by less than one record's
length, so the active file never exceeds `maxSizeBytes` by more than one
record. -/
theorem addLogMessage_rotation_invariant (cfg : LoggerConfig) (now : DateTime)
    (tNow msgLen : Nat) (s : LoggerState)
    (hopen : s.fileOpen = true) (hb : cfg.backup = true)
    (htrig : cfg.maxSize ≤ recordsSize s.active + msgLen)
    (hinv : recordsSize s.active < cfg.maxSize) :
    (addLogMessage cfg now tNow msgLen s).1.active = []
    ∧ (∃ bs, (addLogMessage cfg now tNow msgLen s).1.backups
        = bs ++ [⟨s.active ++ [msgLen], now⟩])
    ∧ LogEvent.rotated ∈ (addLogMessage cfg now tNow msgLen s).2
    ∧ recordsSize (s.active ++ [msgLen]) < cfg.maxSize + msgLen := by
  have hsum : recordsSize (s.active ++ [msgLen]) = recordsSize s.active + msgLen := by
    simp [recordsSize]
  have h2 : cfg.maxSize ≤ recordsSize (s.active ++ [msgLen]) := by
    rw [hsum]
    exact htrig
  by_cases hdel : cfg.deleteOld = true
  · exact ⟨by simp [addLogMessage, hopen, hdel, hb, h2],
      ⟨(deleteOld cfg.ageType cfg.age now (s.backups)).2,
        by simp [addLogMessage, hopen, hdel, hb, h2]⟩,
      by simp [addLogMessage, hopen, hdel, hb, h2],
      by rw [hsum]; omega⟩
  · exact ⟨by simp [addLogMessage, hopen, hdel, hb, h2],
      ⟨s.backups, by simp [addLogMessage, hopen, hdel, hb, h2]⟩,
      by simp [addLogMessage, hopen, hdel, hb, h2],
      by rw [hsum]; omega⟩

/-- Closed instance of `addLogMessage_rotation_invariant`: the 70-byte
record appended to the 80-byte active file triggers the rotation and lands
in the rotated-out file. -/
theorem addLogMessage_rotation_invariant_witness :
    (addLogMessage scenarioConfig epochDT 1 70 scenarioStep1).1.active = []
    ∧ (∃ bs, (addLogMessage scenarioConfig epochDT 1 70 scenarioStep1).1.backups
        = bs ++ [⟨scenarioStep1.active ++ [70], epochDT⟩])
    ∧ LogEvent.rotated ∈ (addLogMessage scenarioConfig epochDT 1 70 scenarioStep1).2
    ∧ recordsSize (scenarioStep1.active ++ [70]) < scenarioConfig.maxSize + 70 :=
  addLogMessage_rotation_invariant scenarioConfig epochDT 1 70 scenarioStep1
    (by decide) (by decide) (by decide) (by decide)

/-- C10: with the log file open and `m_deleteOld` set, every
`addLogMessage` call runs the full eviction sweep, after writing the
record and before the size/rotation check: the event trace starts
`wrote, evicted`, and the resulting backup list is the swept one (with the
rotated-out file appended when the size check then fires). -/
theorem addLogMessage_evicts_each_append (cfg : LoggerConfig) (now : DateTime)
    (tNow msgLen : Nat) (s : LoggerState)
    (hopen : s.fileOpen = true) (hdel : cfg.deleteOld = true) :
    (∃ rest, (addLogMessage cfg now tNow msgLen s).2
        = LogEvent.wrote :: LogEvent.evicted :: rest
      ∧ LogEvent.wrote ∉ rest ∧ LogEvent.evicted ∉ rest)
    ∧ ((addLogMessage cfg now tNow msgLen s).1.backups
          = (deleteOld cfg.ageType cfg.age now s.backups).2
       ∨ (addLogMessage cfg now tNow msgLen s).1.backups
          = (deleteOld cfg.ageType cfg.age now s.backups).2 ++ [⟨s.active ++ [msgLen], now⟩]) := by
  by_cases hrot : cfg.backup = true ∧ cfg.maxSize ≤ recordsSize (s.active ++ [msgLen])
  · exact ⟨⟨[LogEvent.rotated],
        by simp [addLogMessage, hopen, hdel, hrot.1, hrot.2],
        by decide, by decide⟩,
      Or.inr (by simp [addLogMessage, hopen, hdel, hrot.1, hrot.2])⟩
  · by_cases ht : s.timerActive = true
    · exact ⟨⟨[], by simp [addLogMessage, hopen, hdel, hrot, ht], by decide, by decide⟩,
        Or.inl (by simp [addLogMessage, hopen, hdel, hrot, ht])⟩
    · exact ⟨⟨[LogEvent.timerStarted],
          by simp [addLogMessage, hopen, hdel, hrot, ht], by decide, by decide⟩,
        Or.inl (by simp [addLogMessage, hopen, hdel, hrot, ht])⟩

/-- Closed instance of `addLogMessage_evicts_each_append`: an ordinary
append with eviction enabled sweeps the one obsolete backup. -/
theorem addLogMessage_evicts_each_append_witness :
    (∃ rest, (addLogMessage evictConfig epochDT 0 5 evictState).2
        = LogEvent.wrote :: LogEvent.evicted :: rest
      ∧ LogEvent.wrote ∉ rest ∧ LogEvent.evicted ∉ rest)
    ∧ ((addLogMessage evictConfig epochDT 0 5 evictState).1.backups
          = (deleteOld evictConfig.ageType evictConfig.age epochDT evictState.backups).2
       ∨ (addLogMessage evictConfig epochDT 0 5 evictState).1.backups
          = (deleteOld evictConfig.ageType evictConfig.age epochDT evictState.backups).2
              ++ [⟨evictState.active ++ [5], epochDT⟩]) :=
  addLogMessage_evicts_each_append evictConfig epochDT 0 5 evictState (by decide) (by decide)

/-- C9 as stated fails on the code: `addLogMessage` starts the flush timer
only when it is not already active (`if (!m_flusher.isActive())
m_flusher.start()`), so this non-rotating append at second 5 onto a state
whose timer started at second 0 leaves the timer counting from second 0 —
it is not counting a fresh interval from that append. -/
theorem flushTimer_not_restarted :
    LogEvent.rotated ∉ lateAppend.2
    ∧ lateAppend.1.timerActive = true
    ∧ lateAppend.1.timerStart ≠ 5 := by decide

/-- C9 amended: after a successful append that triggers no rotation the
flush timer is running, but it is started only when it was not already
active — an already-running timer keeps counting from its original start,
so appends arriving while it pends coalesce into the single flush it will
perform; on expiry of the single-shot timer the buffered writes are
flushed and the timer is no longer active. -/
theorem flushTimer_start_coalesce (cfg : LoggerConfig) (now : DateTime)
    (tNow msgLen : Nat) (s : LoggerState)
    (hopen : s.fileOpen = true)
    (hnorot : ¬ (cfg.backup = true ∧ cfg.maxSize ≤ recordsSize s.active + msgLen)) :
    (addLogMessage cfg now tNow msgLen s).1.timerActive = true
    ∧ (addLogMessage cfg now tNow msgLen s).1.timerStart
        = (if s.timerActive then s.timerStart else tNow)
    ∧ LogEvent.rotated ∉ (addLogMessage cfg now tNow msgLen s).2
    ∧ (timerExpire (addLogMessage cfg now tNow msgLen s).1).unflushed = 0
    ∧ (timerExpire (addLogMessage cfg now tNow msgLen s).1).timerActive = false := by
  have hsum : recordsSize (s.active ++ [msgLen]) = recordsSize s.active + msgLen := by
    simp [recordsSize]
  have hrot : ¬ (cfg.backup = true ∧ cfg.maxSize ≤ recordsSize (s.active ++ [msgLen])) := by
    rw [hsum]
    exact hnorot
  by_cases hdel : cfg.deleteOld = true <;> by_cases ht : s.timerActive = true <;>
    refine ⟨?_, ?_, ?_, ?_, ?_⟩ <;>
    simp [addLogMessage, timerExpire, flushLog, hopen, hdel, ht, hrot]

/-- Closed instance of `flushTimer_start_coalesce`: the append at second 5
onto the state whose timer started at second 0 keeps the running timer and
its original start. -/
theorem flushTimer_start_coalesce_witness :
    (addLogMessage scenarioConfig epochDT 5 1 busyTimerState).1.timerActive = true
    ∧ (addLogMessage scenarioConfig epochDT 5 1 busyTimerState).1.timerStart
        = (if busyTimerState.timerActive then busyTimerState.timerStart else 5)
    ∧ LogEvent.rotated ∉ (addLogMessage scenarioConfig epochDT 5 1 busyTimerState).2
    ∧ (timerExpire (addLogMessage scenarioConfig epochDT 5 1 busyTimerState).1).unflushed = 0
    ∧ (timerExpire (addLogMessage scenarioConfig epochDT 5 1 busyTimerState).1).timerActive = false :=
  flushTimer_start_coalesce scenarioConfig epochDT 5 1 busyTimerState (by decide) (by decide)

end QBit
